import Mathlib

/-
Verification of the storage core of the DatabaseLab3 teaching database
engine: the clock-eviction buffer pool (src/.../buffer.cpp) and the
block nested-loop join operator with its tuple codec
(src/.../executor.cpp).  The C++ code is shallowly embedded: byte
strings become lists of naturals, C++ exceptions become Except values,
and the two unbounded loops (the clock scan of BufMgr::allocBuf and the
macro-pass loop of NestedLoopJoinOperator::execute) are given explicit
fuel, with fuel exhaustion reported as a distinct outcome.
-/

namespace DBLab

/-- A byte of a serialized tuple; C++ chars are modelled as naturals. -/
abbrev Tuple := List Nat

/-- Attribute data types, mirroring enum DataType {INT, CHAR, VARCHAR}. -/
inductive DataType
  | INT
  | CHAR
  | VARCHAR
deriving DecidableEq, Repr

/-- One schema attribute, mirroring class Attribute of the C++ catalog:
name, type, max size and the two integrity flags. -/
structure Attribute where
  attrName : String
  attrType : DataType
  maxSize : Nat
  notNull : Bool
  uniq : Bool
deriving DecidableEq, Repr

/-- A table schema is its ordered attribute list (class TableSchema). -/
abbrev TableSchema := List Attribute

/-- Default attribute returned for an out-of-range schema access; the
concrete runs in this file never rely on it. -/
def defaultAttr : Attribute := ⟨"", DataType.INT, 0, false, false⟩

/-- Modelled from the spec: the schema accessor getAttrNum(name) of the
catalog header (not under src/) resolves an attribute name to its index;
per the spec's read-only accessor contract it is the index of the
attribute carrying that name. -/
def getAttrNum (schema : TableSchema) (s : String) : Nat :=
  schema.findIdx (fun a => a.attrName = s)

/-- C++ std::string operator[] read; reads past the end never occur in
the concrete runs of this file, the default 0 mirrors the value-initialized
char returned at the exact end position. -/
def strIx (s : Tuple) (i : Nat) : Nat := s.getD i 0

/-- C++ std::string::erase(pos, count): fails (std::out_of_range) when
pos exceeds the size, otherwise removes min(count, size-pos) characters
at pos. -/
def cppErase (s : Tuple) (pos count : Nat) : Option Tuple :=
  if pos ≤ s.length then some (s.take pos ++ s.drop (pos + count)) else none

/-- The executor computes erase positions as `index - already_delete`
where index is int and already_delete is unsigned int: the subtraction
is performed modulo 2^32 (C++ usual arithmetic conversions). -/
def usub32 (a b : Nat) : Nat := (((a : Int) - (b : Int)) % (2 ^ 32)).toNat

/-- The executor reads the VARCHAR length byte through
`stringstream ss; ss << tup[index]; ss >> size;`: formatted extraction
of a single character yields its digit value for '0'..'9' and leaves
size = 0 (extraction failure, value-initialized since C++11) otherwise. -/
def ssParseChar (b : Nat) : Nat := if 48 ≤ b ∧ b ≤ 57 then b - 48 else 0

/-- Mutable locals of handle_tuple: the accumulated join key
(hashString), the shrinking remainder (last) and the running count of
deleted bytes (already_delete). -/
structure HTState where
  hashString : Tuple
  last : Tuple
  already_delete : Nat
deriving DecidableEq, Repr

/-- One iteration of handle_tuple's inner loop over schema positions
j = 0..rank: advance the byte index past attribute j, and at j = rank
copy the attribute's payload bytes into hashString and erase its span
from last. Returns none when the erase position is out of range (the
C++ erase throws). -/
def htBody (schema : TableSchema) (tup : Tuple) (rank : Nat)
    (acc : Nat × HTState) (j : Nat) : Option (Nat × HTState) :=
  let index := acc.1
  let st := acc.2
  let a := schema.getD j defaultAttr
  match a.attrType with
  | DataType.INT =>
    if j = rank then
      let hs := st.hashString ++
        [strIx tup index, strIx tup (index + 1), strIx tup (index + 2), strIx tup (index + 3)]
      match cppErase st.last (usub32 index st.already_delete) 4 with
      | some l => some (index + 4, ⟨hs, l, st.already_delete + 4⟩)
      | none => none
    else some (index + 4, st)
  | DataType.CHAR =>
    let m := a.maxSize
    if j = rank then
      let hs := st.hashString ++ (List.range m).map (fun k => strIx tup (index + k))
      match cppErase st.last (usub32 index st.already_delete) m with
      | some l => some (index + m, ⟨hs, l, st.already_delete + m⟩)
      | none => none
    else some (index + m, st)
  | DataType.VARCHAR =>
    let size := ssParseChar (strIx tup index)
    if j = rank then
      let hs := st.hashString ++ (List.range size).map (fun k => strIx tup (index + 1 + k))
      match cppErase st.last (usub32 index st.already_delete) (size + 1) with
      | some l => some (index + size + 1, ⟨hs, l, st.already_delete + size + 1⟩)
      | none => none
    else some (index + size + 1, st)

/-- handle_tuple's inner loop, iterated over an explicit list of schema
positions (the C++ loop runs it over 0..rank). -/
def htInner (schema : TableSchema) (tup : Tuple) (rank : Nat) :
    List Nat → Nat × HTState → Option (Nat × HTState)
  | [], acc => some acc
  | j :: js, acc =>
    match htBody schema tup rank acc j with
    | some acc' => htInner schema tup rank js acc'
    | none => none

/-- Processing of one common attribute name by handle_tuple: run the
inner loop up to the attribute's rank, then erase the alignment padding
from last when the accumulated index is not a multiple of 4. -/
def handle_tuple_step (schema : TableSchema) (tup : Tuple) (st : HTState)
    (comAttr : String) : Option HTState :=
  let rank := getAttrNum schema comAttr
  match htInner schema tup rank (List.range (rank + 1)) (0, st) with
  | none => none
  | some (index, st₁) =>
    if index % 4 ≠ 0 then
      match cppErase st₁.last (usub32 index st₁.already_delete) (4 - index % 4) with
      | some l => some ⟨st₁.hashString, l, st₁.already_delete + (4 - index % 4)⟩
      | none => none
    else some st₁

/-- Outer loop of handle_tuple over the common attribute names. -/
def handle_tuple_go (schema : TableSchema) (tup : Tuple) :
    List String → HTState → Option HTState
  | [], st => some st
  | s :: rest, st =>
    match handle_tuple_step schema tup st s with
    | some st' => handle_tuple_go schema tup rest st'
    | none => none

/-- handle_tuple (executor.cpp, lines 238-293): both callers pass empty
hashString and last, so last starts as the whole tuple; the function
returns the accumulated join key and the remainder, or none when a C++
erase would throw. -/
def handle_tuple (sameName : List String) (tup : Tuple) (schema : TableSchema) :
    Option (Tuple × Tuple) :=
  match handle_tuple_go schema tup sameName ⟨[], tup, 0⟩ with
  | some st => some (st.hashString, st.last)
  | none => none

/-- Padding of an encoded attribute length to the next multiple of 4,
per the tuple encoding of the spec (section 3). -/
def pad4 (n : Nat) : Nat := n + (4 - n % 4) % 4

/-- Byte length of the encoded attribute starting at offset, per the
spec's attributeSpan: 4 for INT, maxSize padded for CHAR, and 1+L
padded for VARCHAR where L is the length byte at offset. -/
def attributeSpan (a : Attribute) (bytes : Tuple) (offset : Nat) : Nat :=
  match a.attrType with
  | DataType.INT => 4
  | DataType.CHAR => pad4 a.maxSize
  | DataType.VARCHAR => pad4 (1 + strIx bytes offset)

/-- Walk of the schema for the spec-side extraction: accumulates into
the key the full encoded span of every attribute whose name is common,
and into the remainder the spans of all other attributes, in schema
order. -/
def specExtractGo (commonAttrNames : List String) (tuple : Tuple) :
    List Attribute → Nat → Tuple × Tuple
  | [], _ => ([], [])
  | a :: rest, off =>
    let len := attributeSpan a tuple off
    let kr := specExtractGo commonAttrNames tuple rest (off + len)
    if a.attrName ∈ commonAttrNames then
      (((tuple.drop off).take len) ++ kr.1, kr.2)
    else
      (kr.1, ((tuple.drop off).take len) ++ kr.2)

/-- The extraction described by the spec (section 4.1,
extractJoinKeyAndRemainder): key = concatenation in schema order of the
raw encoded bytes of the common attributes, remainder = the tuple with
exactly those byte spans deleted, order preserved. -/
def specExtractJoinKeyAndRemainder (tuple : Tuple) (commonAttrNames : List String)
    (schema : TableSchema) : Tuple × Tuple :=
  specExtractGo commonAttrNames tuple schema 0

lemma getD_attrType_INT (schema : TableSchema)
    (hINT : ∀ a ∈ schema, a.attrType = DataType.INT) (j : Nat) :
    (schema.getD j defaultAttr).attrType = DataType.INT := by
  by_cases hj : j < schema.length
  · rw [List.getD_eq_getElem schema defaultAttr hj]
    exact hINT _ (schema.getElem_mem hj)
  · rw [List.getD_eq_default schema defaultAttr (Nat.le_of_not_lt hj)]
    rfl

lemma usub32_eq (a b : Nat) (h1 : b ≤ a) (h2 : a < 2 ^ 32) : usub32 a b = a - b := by
  unfold usub32
  omega

lemma htInner_append (schema : TableSchema) (tup : Tuple) (rank : Nat)
    (l1 l2 : List Nat) (acc : Nat × HTState) :
    htInner schema tup rank (l1 ++ l2) acc =
      match htInner schema tup rank l1 acc with
      | some acc' => htInner schema tup rank l2 acc'
      | none => none := by
  induction l1 generalizing acc with
  | nil => simp [htInner]
  | cons j js ih =>
    simp only [List.cons_append, htInner]
    cases htBody schema tup rank acc j with
    | some acc' => exact ih acc'
    | none => rfl

lemma htInner_skip (schema : TableSchema) (tup : Tuple) (rank : Nat)
    (hINT : ∀ a ∈ schema, a.attrType = DataType.INT)
    (js : List Nat) (hjs : ∀ j ∈ js, j ≠ rank) (index : Nat) (st : HTState) :
    htInner schema tup rank js (index, st) = some (index + 4 * js.length, st) := by
  induction js generalizing index with
  | nil => simp [htInner]
  | cons j js ih =>
    have hj : j ≠ rank := hjs j (by simp)
    simp only [htInner, htBody, getD_attrType_INT schema hINT j, if_neg hj]
    rw [ih (fun x hx => hjs x (by simp [hx])) (index + 4)]
    congr 1
    simp [List.length_cons]
    ring

lemma slice_eq_strIx (tup : Tuple) (r : Nat) (h : 4 * r + 4 ≤ tup.length) :
    (tup.drop (4 * r)).take 4 =
      [strIx tup (4 * r), strIx tup (4 * r + 1), strIx tup (4 * r + 2),
       strIx tup (4 * r + 3)] := by
  have hk : ∀ k, (tup.drop (4 * r)).getD k 0 = strIx tup (4 * r + k) := by
    intro k
    simp [strIx, List.getD, List.getElem?_drop]
  have hl : 4 ≤ (tup.drop (4 * r)).length := by
    simp only [List.length_drop]
    omega
  have h0 := hk 0
  have h1 := hk 1
  have h2 := hk 2
  have h3 := hk 3
  rcases e : tup.drop (4 * r) with _ | ⟨a, _ | ⟨b, _ | ⟨c, _ | ⟨d, t⟩⟩⟩⟩ <;>
    rw [e] at hl <;> simp at hl
  rw [e] at h0 h1 h2 h3
  simp only [List.getD] at h0 h1 h2 h3
  simp at h0 h1 h2 h3
  simp [List.take, ← h0, ← h1, ← h2, ← h3]

lemma specExtractGo_not_mem (s : String) (tup : Tuple) (schema : TableSchema) (off : Nat)
    (hINT : ∀ a ∈ schema, a.attrType = DataType.INT)
    (hs : ∀ a ∈ schema, a.attrName ≠ s) :
    specExtractGo [s] tup schema off = ([], (tup.drop off).take (4 * schema.length)) := by
  induction schema generalizing off with
  | nil => simp [specExtractGo]
  | cons a rest ih =>
    have ha : a.attrType = DataType.INT := hINT a (by simp)
    have hspan : attributeSpan a tup off = 4 := by simp [attributeSpan, ha]
    have hname : a.attrName ≠ s := hs a (by simp)
    simp only [specExtractGo, hspan]
    rw [ih (off + 4) (fun b hb => hINT b (by simp [hb])) (fun b hb => hs b (by simp [hb]))]
    simp only [List.mem_singleton, if_neg hname]
    rw [List.length_cons, show 4 * (rest.length + 1) = 4 + 4 * rest.length by ring,
      List.take_add, List.drop_drop]

lemma specExtractGo_found (s : String) (tup : Tuple) (schema : TableSchema) (off r : Nat)
    (hINT : ∀ a ∈ schema, a.attrType = DataType.INT)
    (hfind : schema.findIdx (fun a => a.attrName = s) = r)
    (hr : r < schema.length)
    (hcount : (schema.map Attribute.attrName).count s = 1) :
    specExtractGo [s] tup schema off =
      ((tup.drop (off + 4 * r)).take 4,
       (tup.drop off).take (4 * r) ++
         (tup.drop (off + 4 * r + 4)).take (4 * (schema.length - r - 1))) := by
  induction schema generalizing off r with
  | nil => simp at hr
  | cons a rest ih =>
    have ha : a.attrType = DataType.INT := hINT a (by simp)
    have hspan : attributeSpan a tup off = 4 := by simp [attributeSpan, ha]
    by_cases hname : a.attrName = s
    · have hr0 : r = 0 := by
        rw [List.findIdx_cons] at hfind
        simp [hname] at hfind
        omega
      subst hr0
      have hcount' : ((rest.map Attribute.attrName).count s) = 0 := by
        rw [List.map_cons, List.count_cons] at hcount
        simp [hname] at hcount
        exact hcount
      have hrest : ∀ b ∈ rest, b.attrName ≠ s := by
        intro b hb hbs
        have : s ∈ rest.map Attribute.attrName := List.mem_map.mpr ⟨b, hb, hbs⟩
        rw [← List.count_pos_iff] at this
        omega
      simp only [specExtractGo, hspan,
        specExtractGo_not_mem s tup rest (off + 4) (fun b hb => hINT b (by simp [hb])) hrest]
      simp [hname]
    · have hfind' : rest.findIdx (fun a => a.attrName = s) = r - 1 ∧ 1 ≤ r := by
        rw [List.findIdx_cons] at hfind
        simp [hname] at hfind
        omega
      obtain ⟨hf', hr1⟩ := hfind'
      have hr' : r - 1 < rest.length := by
        rw [List.length_cons] at hr
        omega
      have hcount' : ((rest.map Attribute.attrName).count s) = 1 := by
        rw [List.map_cons, List.count_cons] at hcount
        simp [hname] at hcount
        exact hcount
      have krh := ih (off + 4) (r - 1) (fun b hb => hINT b (by simp [hb])) hf' hr' hcount'
      simp only [specExtractGo, hspan, krh, List.mem_singleton, if_neg hname]
      have e1 : off + 4 + 4 * (r - 1) = off + 4 * r := by omega
      have e2 : off + 4 + 4 * (r - 1) + 4 = off + 4 * r + 4 := by omega
      have e3 : rest.length - (r - 1) - 1 = (a :: rest).length - r - 1 := by
        rw [List.length_cons]
        omega
      have hsplit : List.take (4 * r) (List.drop off tup) =
          List.take 4 (List.drop off tup) ++ List.take (4 * (r - 1)) (List.drop (off + 4) tup) := by
        rw [show (4 : Nat) * r = 4 + 4 * (r - 1) by omega, List.take_add, List.drop_drop]
      rw [Prod.mk.injEq]
      constructor
      · rw [e1]
      · rw [e2, e3, hsplit, List.append_assoc]

lemma handle_tuple_single (schema : TableSchema) (tup : Tuple) (s : String) (r : Nat)
    (hINT : ∀ a ∈ schema, a.attrType = DataType.INT)
    (hfind : getAttrNum schema s = r) (hr : r < schema.length)
    (hlen : tup.length = 4 * schema.length) (hsmall : 4 * schema.length < 2 ^ 32) :
    handle_tuple [s] tup schema =
      some ([strIx tup (4 * r), strIx tup (4 * r + 1), strIx tup (4 * r + 2),
             strIx tup (4 * r + 3)],
            tup.take (4 * r) ++ tup.drop (4 * r + 4)) := by
  have hrange : List.range (r + 1) = List.range r ++ [r] := by
    rw [← Nat.succ_eq_add_one, List.range_succ]
  have hskip := htInner_skip schema tup r hINT (List.range r)
    (fun j hj => Nat.ne_of_lt (List.mem_range.mp hj)) 0 ⟨[], tup, 0⟩
  have hstep : handle_tuple_step schema tup ⟨[], tup, 0⟩ s =
      some ⟨[strIx tup (4 * r), strIx tup (4 * r + 1), strIx tup (4 * r + 2),
             strIx tup (4 * r + 3)],
            tup.take (4 * r) ++ tup.drop (4 * r + 4), 4⟩ := by
    unfold handle_tuple_step
    simp only [hfind]
    rw [hrange, htInner_append, hskip, List.length_range]
    have hrank : htInner schema tup r [r] (0 + 4 * r, ⟨[], tup, 0⟩) =
        some (4 * r + 4, ⟨[strIx tup (4 * r), strIx tup (4 * r + 1), strIx tup (4 * r + 2),
              strIx tup (4 * r + 3)],
             tup.take (4 * r) ++ tup.drop (4 * r + 4), 4⟩) := by
      simp only [htInner, htBody, getD_attrType_INT schema hINT r, if_pos rfl]
      rw [usub32_eq (0 + 4 * r) 0 (Nat.zero_le _) (by omega)]
      unfold cppErase
      have hcond : 0 + 4 * r - 0 ≤ List.length tup := by omega
      rw [if_pos hcond]
      simp only [Nat.zero_add, Nat.sub_zero, Option.some.injEq]
      rfl
    dsimp only
    rw [hrank]
    simp
  unfold handle_tuple handle_tuple_go
  rw [hstep]
  rfl

/-- C6: on the executor's own inputs the claim fails: for the schema
(x CHAR(2), a INT) and the encoded tuple of (x = "hi", a = 9), the
common attribute a occupies bytes 4..7 (CHAR(2) is padded to 4 bytes)
but handle_tuple, which advances its index by the unpadded CHAR width,
extracts bytes 2..5 as the key and deletes the wrong spans, so its
result differs from the spec's extractJoinKeyAndRemainder. -/
theorem c6_counterexample :
    handle_tuple ["a"]
        [104, 105, 0, 0, 0, 0, 0, 9]
        [⟨"x", DataType.CHAR, 2, false, false⟩, ⟨"a", DataType.INT, 4, false, false⟩] ≠
      some (specExtractJoinKeyAndRemainder
        [104, 105, 0, 0, 0, 0, 0, 9]
        ["a"]
        [⟨"x", DataType.CHAR, 2, false, false⟩, ⟨"a", DataType.INT, 4, false, false⟩]) := by
  decide

/-- C6 (amended): handle_tuple computes the spec's
extractJoinKeyAndRemainder whenever every schema attribute is a 4-byte
INT (so every encoded span is self-aligned) and the common-attribute
list is a single name occurring exactly once in the schema: the key is
that attribute's raw 4 encoded bytes and the remainder is the tuple
with exactly that span deleted. (With CHAR/VARCHAR attributes the code
ignores the per-attribute alignment padding when advancing its offsets,
and with several common names it reads them in list order rather than
schema order, so the general claim fails.) -/
theorem c6_extract_amended (schema : TableSchema) (tup : Tuple) (s : String)
    (hINT : ∀ a ∈ schema, a.attrType = DataType.INT)
    (hcount : (schema.map Attribute.attrName).count s = 1)
    (hlen : tup.length = 4 * schema.length)
    (hsmall : 4 * schema.length < 2 ^ 32) :
    handle_tuple [s] tup schema =
      some (specExtractJoinKeyAndRemainder tup [s] schema) := by
  have hmem : s ∈ schema.map Attribute.attrName := by
    rw [← List.count_pos_iff]
    omega
  obtain ⟨a, ha, has⟩ := List.mem_map.mp hmem
  have hr : getAttrNum schema s < schema.length := by
    unfold getAttrNum
    exact List.findIdx_lt_length_of_exists ⟨a, ha, by simp [has]⟩
  set r := getAttrNum schema s with hrdef
  have hspec := specExtractGo_found s tup schema 0 r hINT hrdef.symm hr hcount
  have hcode := handle_tuple_single schema tup s r hINT rfl hr hlen hsmall
  rw [hcode]
  unfold specExtractJoinKeyAndRemainder
  rw [hspec]
  have hkey : (tup.drop (0 + 4 * r)).take 4 =
      [strIx tup (4 * r), strIx tup (4 * r + 1), strIx tup (4 * r + 2),
       strIx tup (4 * r + 3)] := by
    rw [Nat.zero_add]
    exact slice_eq_strIx tup r (by omega)
  have hrem : (tup.drop 0).take (4 * r) ++
      (tup.drop (0 + 4 * r + 4)).take (4 * (schema.length - r - 1)) =
      tup.take (4 * r) ++ tup.drop (4 * r + 4) := by
    rw [List.drop_zero, Nat.zero_add]
    congr 1
    apply List.take_of_length_le
    rw [List.length_drop]
    omega
  rw [hkey, hrem]

/-- C6 amended witness: schema (a INT, b INT), tuple (a = 1, b = 2),
common name a. -/
theorem c6_extract_amended_witness :
    handle_tuple ["a"] [0, 0, 0, 1, 0, 0, 0, 2]
        [⟨"a", DataType.INT, 4, false, false⟩, ⟨"b", DataType.INT, 4, false, false⟩] =
      some (specExtractJoinKeyAndRemainder [0, 0, 0, 1, 0, 0, 0, 2] ["a"]
        [⟨"a", DataType.INT, 4, false, false⟩, ⟨"b", DataType.INT, 4, false, false⟩]) :=
  c6_extract_amended
    [⟨"a", DataType.INT, 4, false, false⟩, ⟨"b", DataType.INT, 4, false, false⟩]
    [0, 0, 0, 1, 0, 0, 0, 2] "a" (by decide) (by decide) (by decide) (by decide)

/-- Names of a schema's attributes, in schema order (the executor's
attrname vector, executor.cpp lines 311-313). -/
def attrNames (s : TableSchema) : List String := s.map Attribute.attrName

/-- The join-column names actually used by NestedLoopJoinOperator::execute
(executor.cpp lines 314-318): right-schema attributes whose NAME occurs
among the left attribute names, type ignored, in right-schema order. -/
def sameNames (l r : TableSchema) : List String :=
  (r.filter (fun a => a.attrName ∈ attrNames l)).map Attribute.attrName

/-- JoinOperator::getCommonAttributes (executor.cpp lines 144-163):
for each right attribute (outer loop, right-schema order), for each left
attribute (inner loop), push the right attribute when both name and type
match. -/
def getCommonAttributes (l r : TableSchema) : List Attribute :=
  r.flatMap (fun ra => l.flatMap (fun la =>
    if la.attrType = ra.attrType ∧ la.attrName = ra.attrName then [ra] else []))

lemma getCommonAttributes_inner (l : List Attribute) (ra : Attribute)
    (hnd : (attrNames l).Nodup)
    (hty : ∀ la ∈ l, la.attrName = ra.attrName → la.attrType = ra.attrType) :
    l.flatMap (fun la =>
        if la.attrType = ra.attrType ∧ la.attrName = ra.attrName then [ra] else []) =
      if ra.attrName ∈ attrNames l then [ra] else [] := by
  induction l with
  | nil => simp [attrNames]
  | cons la rest ih =>
    have hnd' : (attrNames rest).Nodup := by
      rw [attrNames, List.map_cons] at hnd
      exact hnd.of_cons
    by_cases hname : la.attrName = ra.attrName
    · have hty' : la.attrType = ra.attrType := hty la (by simp) hname
      have hnotin : ra.attrName ∉ attrNames rest := by
        rw [attrNames, List.map_cons] at hnd
        rw [← hname]
        exact (List.nodup_cons.mp hnd).1
      have hrest0 : rest.flatMap (fun la =>
          if la.attrType = ra.attrType ∧ la.attrName = ra.attrName then [ra] else []) = [] := by
        rw [List.flatMap_eq_nil_iff]
        intro b hb
        have hbn : b.attrName ≠ ra.attrName := by
          intro he
          exact hnotin (by rw [← he]; exact List.mem_map.mpr ⟨b, hb, rfl⟩)
        simp [hbn]
      rw [List.flatMap_cons, hrest0, if_pos ⟨hty', hname⟩]
      have : ra.attrName ∈ attrNames (la :: rest) := by
        rw [attrNames, List.map_cons, ← hname]
        simp
      rw [if_pos this]
      simp
    · rw [List.flatMap_cons]
      have hcond : ¬(la.attrType = ra.attrType ∧ la.attrName = ra.attrName) := by
        intro h
        exact hname h.2
      rw [if_neg hcond]
      rw [ih hnd' (fun b hb hbe => hty b (by simp [hb]) hbe)]
      have hmem : (ra.attrName ∈ attrNames (la :: rest)) ↔ (ra.attrName ∈ attrNames rest) := by
        rw [attrNames, List.map_cons, List.mem_cons]
        constructor
        · rintro (h | h)
          · exact absurd h.symm hname
          · exact h
        · exact Or.inr
      by_cases hin : ra.attrName ∈ attrNames rest
      · rw [if_pos hin, if_pos (hmem.mpr hin)]
        simp
      · rw [if_neg hin, if_neg (fun h => hin (hmem.mp h))]
        simp

/-- C4: the claim fails on the code. For left schema (a INT) and right
schema (a CHAR(4)), getCommonAttributes is empty (it requires the name
AND the type to match), but NestedLoopJoinOperator::execute builds its
join-column list sameName by name alone, so it treats a as a join
column. -/
theorem c4_counterexample :
    sameNames [⟨"a", DataType.INT, 4, false, false⟩]
        [⟨"a", DataType.CHAR, 4, false, false⟩] ≠
      attrNames (getCommonAttributes [⟨"a", DataType.INT, 4, false, false⟩]
        [⟨"a", DataType.CHAR, 4, false, false⟩]) := by
  decide

/-- C4 (amended): the equi-join columns used by execute are the
right-schema attributes whose name (type ignored) occurs among the left
attribute names, in right-schema order; when the left attribute names
are distinct and any shared name implies a shared type, this list
coincides with the names of commonAttributes(left, right) as computed
by getCommonAttributes. -/
theorem c4_join_columns_amended (l r : TableSchema)
    (hnd : (attrNames l).Nodup)
    (hty : ∀ la ∈ l, ∀ ra ∈ r, la.attrName = ra.attrName → la.attrType = ra.attrType) :
    sameNames l r = attrNames (getCommonAttributes l r) := by
  induction r with
  | nil => simp [sameNames, getCommonAttributes, attrNames]
  | cons ra rest ih =>
    have hinner := getCommonAttributes_inner l ra hnd
      (fun la hla he => hty la hla ra (by simp) he)
    have ihr := ih (fun la hla rb hrb => hty la hla rb (by simp [hrb]))
    have hgr : getCommonAttributes l (ra :: rest) =
        (if ra.attrName ∈ attrNames l then [ra] else []) ++ getCommonAttributes l rest := by
      rw [getCommonAttributes, List.flatMap_cons, hinner]
      rfl
    have hsn : sameNames l (ra :: rest) =
        (if ra.attrName ∈ attrNames l then [ra.attrName] else []) ++ sameNames l rest := by
      rw [sameNames, List.filter_cons]
      by_cases hin : ra.attrName ∈ attrNames l
      · simp [hin, sameNames]
      · simp [hin, sameNames]
    rw [hsn, hgr]
    rw [show attrNames ((if ra.attrName ∈ attrNames l then [ra] else []) ++
          getCommonAttributes l rest) =
        attrNames (if ra.attrName ∈ attrNames l then [ra] else []) ++
          attrNames (getCommonAttributes l rest) by
      simp only [attrNames, List.map_append]]
    rw [ihr]
    by_cases hin : ra.attrName ∈ attrNames l
    · rw [if_pos hin, if_pos hin]
      rfl
    · rw [if_neg hin, if_neg hin]
      rfl

/-- C4 amended witness: left schema (a INT, b CHAR(4)), right schema
(b CHAR(4), c INT): the name-only columns of execute coincide with
getCommonAttributes, both being [b]. -/
theorem c4_join_columns_amended_witness :
    sameNames
        [⟨"a", DataType.INT, 4, false, false⟩, ⟨"b", DataType.CHAR, 4, false, false⟩]
        [⟨"b", DataType.CHAR, 4, false, false⟩, ⟨"c", DataType.INT, 4, false, false⟩] =
      attrNames (getCommonAttributes
        [⟨"a", DataType.INT, 4, false, false⟩, ⟨"b", DataType.CHAR, 4, false, false⟩]
        [⟨"b", DataType.CHAR, 4, false, false⟩, ⟨"c", DataType.INT, 4, false, false⟩]) :=
  c4_join_columns_amended
    [⟨"a", DataType.INT, 4, false, false⟩, ⟨"b", DataType.CHAR, 4, false, false⟩]
    [⟨"b", DataType.CHAR, 4, false, false⟩, ⟨"c", DataType.INT, 4, false, false⟩]
    (by decide) (by decide)

/-- Buffer-pool errors, mirroring the exception classes thrown by
buffer.cpp. -/
inductive BufErr
  | bufferExceeded
  | pageNotPinned
  | pagePinned
  | badBuffer
deriving DecidableEq, Repr

/-- Frame descriptor, mirroring class BufDesc of buffer.h as used by
buffer.cpp: owning file (by file identity, modelled as a numeric id),
page number, frame number, pin count and the dirty/ref/valid bits. -/
structure BufDesc where
  fileId : Nat
  pageNo : Nat
  frameNo : Nat
  pinCnt : Nat
  dirty : Bool
  refbit : Bool
  valid : Bool
deriving DecidableEq, Repr

/-- Modelled from the spec: BufDesc::Clear lives in buffer.h, which is
not under src/; per the spec's descriptor invariant (valid=false implies
pinCount=0 and dirty=false) and the eviction step "clear its descriptor
fields", Clear resets every field except the frame number. -/
def BufDesc.ClearD (d : BufDesc) : BufDesc := ⟨0, 0, d.frameNo, 0, false, false, false⟩

/-- Modelled from the spec: BufDesc::Set lives in buffer.h, which is not
under src/; per the spec's fetch-miss step it installs
{file, pageId, pinCount=1, referenced=true, dirty=false, valid=true}. -/
def BufDesc.SetD (d : BufDesc) (f p : Nat) : BufDesc := ⟨f, p, d.frameNo, 1, false, true, true⟩

/-- Buffer manager state, mirroring the fields of class BufMgr: the
descriptor table, the clock hand, the page hash table mapping
(file, pageNo) to a frame id, and a log of the pages written back to
disk (page byte contents are irrelevant to the claims about this
component and are elided). -/
structure BufState where
  numBufs : Nat
  descs : List BufDesc
  clockHand : Nat
  hashTbl : List ((Nat × Nat) × Nat)
  writes : List (Nat × Nat)
deriving DecidableEq, Repr

/-- Descriptor of frame i (bufDescTable[i]). -/
def descAt (st : BufState) (i : Nat) : BufDesc := st.descs.getD i ⟨0, 0, 0, 0, false, false, false⟩

/-- Replace the descriptor of frame i. -/
def setDescAt (st : BufState) (i : Nat) (d : BufDesc) : BufState :=
  { st with descs := st.descs.set i d }

/-- BufHashTbl::lookup: the frame holding (file, pageNo), if any. -/
def htLookup (tbl : List ((Nat × Nat) × Nat)) (f p : Nat) : Option Nat :=
  (tbl.find? (fun e => e.1 = (f, p))).map (fun e => e.2)

/-- BufHashTbl::insert; allocBuf and the fetch path only insert keys
that are currently absent. -/
def htInsert (tbl : List ((Nat × Nat) × Nat)) (f p frame : Nat) :
    List ((Nat × Nat) × Nat) := tbl ++ [((f, p), frame)]

/-- BufHashTbl::remove; callers in buffer.cpp only remove keys that are
present, so the silent filter is faithful there. -/
def htRemove (tbl : List ((Nat × Nat) × Nat)) (f p : Nat) :
    List ((Nat × Nat) × Nat) := tbl.filter (fun e => e.1 ≠ (f, p))

/-- BufMgr::allocBuf (buffer.cpp lines 70-132), one clock scan step per
fuel unit: advance the hand, fail with BufferExceeded once the pinned
counter has reached numBufs, select an invalid frame immediately,
give a referenced frame a second chance, count a pinned frame, and
otherwise evict the frame (writing it back first when dirty). Returns
none when the fuel runs out before the loop exits. -/
def allocBufLoop (fuel : Nat) (st : BufState) (pinned : Nat) :
    Option (Except BufErr (Nat × BufState)) :=
  match fuel with
  | 0 => none
  | fuel + 1 =>
    let hand := (st.clockHand + 1) % st.numBufs
    let st₁ := { st with clockHand := hand }
    if pinned = st.numBufs then some (Except.error BufErr.bufferExceeded)
    else
      let d := descAt st hand
      if d.valid = false then
        some (Except.ok (hand, setDescAt st₁ hand d.ClearD))
      else if d.refbit = true then
        allocBufLoop fuel (setDescAt st₁ hand { d with refbit := false }) pinned
      else if 0 < d.pinCnt then
        allocBufLoop fuel st₁ (pinned + 1)
      else
        let st₂ := if d.dirty = true then { st₁ with writes := st₁.writes ++ [(d.fileId, d.pageNo)] } else st₁
        let st₃ := { st₂ with hashTbl := htRemove st₂.hashTbl d.fileId d.pageNo }
        some (Except.ok (hand, setDescAt st₃ hand d.ClearD))

/-- BufMgr::readPage (buffer.cpp lines 135-155): on an index hit set the
reference bit and increment the pin count; on a miss obtain a frame from
allocBuf (propagating BufferExceeded), insert the mapping and Set the
descriptor. Page byte contents are elided. -/
def readPage (st : BufState) (f p : Nat) (fuel : Nat) :
    Option (Except BufErr BufState) :=
  match htLookup st.hashTbl f p with
  | some frame =>
    let d := descAt st frame
    some (Except.ok (setDescAt st frame { d with refbit := true, pinCnt := d.pinCnt + 1 }))
  | none =>
    match allocBufLoop fuel st 0 with
    | none => none
    | some (Except.error e) => some (Except.error e)
    | some (Except.ok (frame, st₁)) =>
      let st₂ := { st₁ with hashTbl := htInsert st₁.hashTbl f p frame }
      some (Except.ok (setDescAt st₂ frame ((descAt st₂ frame).SetD f p)))

/-- BufMgr::unPinPage (buffer.cpp lines 158-175): on an index hit with a
positive pin count, decrement it and set the dirty bit when asked (never
clear it); with pin count zero raise PageNotPinned; on an index miss
return silently. -/
def unPinPage (st : BufState) (f p : Nat) (dirty : Bool) : Except BufErr BufState :=
  match htLookup st.hashTbl f p with
  | some frame =>
    let d := descAt st frame
    if 0 < d.pinCnt then
      Except.ok (setDescAt st frame
        { d with pinCnt := d.pinCnt - 1, dirty := if dirty = true then dirty else d.dirty })
    else Except.error BufErr.pageNotPinned
  | none => Except.ok st

lemma descAt_setDescAt_pinCnt (st : BufState) (i k : Nat) (d : BufDesc)
    (hp : d.pinCnt = (descAt st i).pinCnt) :
    (descAt (setDescAt st i d) k).pinCnt = (descAt st k).pinCnt := by
  unfold descAt setDescAt
  by_cases hik : i = k
  · subst hik
    by_cases hi : i < st.descs.length
    · rw [List.getD_eq_getElem _ _ (by simpa using hi), List.getElem_set_self]
      · rw [hp]
        unfold descAt
        rw [List.getD_eq_getElem _ _ hi]
    · rw [List.getD_eq_default _ _ (by simpa using Nat.le_of_not_lt hi),
        List.getD_eq_default _ _ (Nat.le_of_not_lt hi)]
  · by_cases hk : k < st.descs.length
    · rw [List.getD_eq_getElem _ _ (by simpa using hk),
        List.getElem_set_ne (by omega), List.getD_eq_getElem _ _ hk]
    · rw [List.getD_eq_default _ _ (by simpa using Nat.le_of_not_lt hk),
        List.getD_eq_default _ _ (Nat.le_of_not_lt hk)]

lemma descAt_setDescAt_valid (st : BufState) (i k : Nat) (d : BufDesc)
    (hv : d.valid = (descAt st i).valid) :
    (descAt (setDescAt st i d) k).valid = (descAt st k).valid := by
  unfold descAt setDescAt
  by_cases hik : i = k
  · subst hik
    by_cases hi : i < st.descs.length
    · rw [List.getD_eq_getElem _ _ (by simpa using hi), List.getElem_set_self]
      · rw [hv]
        unfold descAt
        rw [List.getD_eq_getElem _ _ hi]
    · rw [List.getD_eq_default _ _ (by simpa using Nat.le_of_not_lt hi),
        List.getD_eq_default _ _ (Nat.le_of_not_lt hi)]
  · by_cases hk : k < st.descs.length
    · rw [List.getD_eq_getElem _ _ (by simpa using hk),
        List.getElem_set_ne (by omega), List.getD_eq_getElem _ _ hk]
    · rw [List.getD_eq_default _ _ (by simpa using Nat.le_of_not_lt hk),
        List.getD_eq_default _ _ (Nat.le_of_not_lt hk)]

/-- C2: eviction never selects a pinned frame: whenever allocBuf returns
a frame, that frame's descriptor — in the state in which allocBuf was
called, whose pin counts and valid bits the scan never changes before
selecting — was invalid or had pinCount = 0. The branch structure of the
scan checks valid, then the reference bit, then pinCount > 0, so the
victim branch is only reachable with pinCount = 0. -/
theorem c2_eviction_never_pinned (fuel : Nat) :
    ∀ (st : BufState) (pinned f : Nat) (st' : BufState),
      allocBufLoop fuel st pinned = some (Except.ok (f, st')) →
      (descAt st f).valid = false ∨ (descAt st f).pinCnt = 0 := by
  induction fuel with
  | zero =>
    intro st pinned f st' h
    simp [allocBufLoop] at h
  | succ n ih =>
    intro st pinned f st' h
    rw [allocBufLoop] at h
    dsimp only at h
    by_cases h1 : pinned = st.numBufs
    · rw [if_pos h1] at h
      exact absurd h (by simp)
    · rw [if_neg h1] at h
      by_cases h2 : (descAt st ((st.clockHand + 1) % st.numBufs)).valid = false
      · rw [if_pos h2] at h
        simp only [Option.some.injEq, Except.ok.injEq, Prod.mk.injEq] at h
        left
        rw [← h.1]
        exact h2
      · rw [if_neg h2] at h
        by_cases h3 : (descAt st ((st.clockHand + 1) % st.numBufs)).refbit = true
        · rw [if_pos h3] at h
          have hres := ih _ _ _ _ h
          have hval := descAt_setDescAt_valid
            { st with clockHand := (st.clockHand + 1) % st.numBufs }
            ((st.clockHand + 1) % st.numBufs) f
            { descAt st ((st.clockHand + 1) % st.numBufs) with refbit := false } rfl
          have hpin := descAt_setDescAt_pinCnt
            { st with clockHand := (st.clockHand + 1) % st.numBufs }
            ((st.clockHand + 1) % st.numBufs) f
            { descAt st ((st.clockHand + 1) % st.numBufs) with refbit := false } rfl
          rcases hres with hv | hp
          · left
            rw [hval] at hv
            exact hv
          · right
            rw [hpin] at hp
            exact hp
        · rw [if_neg h3] at h
          by_cases h4 : 0 < (descAt st ((st.clockHand + 1) % st.numBufs)).pinCnt
          · rw [if_pos h4] at h
            exact ih { st with clockHand := (st.clockHand + 1) % st.numBufs } (pinned + 1) f st' h
          · rw [if_neg h4] at h
            simp only [Option.some.injEq, Except.ok.injEq, Prod.mk.injEq] at h
            right
            rw [← h.1]
            omega

/-- C2 witness: a one-frame pool whose only frame is invalid; allocBuf
selects frame 0 and the theorem instantiates to it. -/
theorem c2_eviction_never_pinned_witness :
    (descAt ⟨1, [⟨0, 0, 0, 0, false, false, false⟩], 0, [], []⟩ 0).valid = false ∨
      (descAt ⟨1, [⟨0, 0, 0, 0, false, false, false⟩], 0, [], []⟩ 0).pinCnt = 0 :=
  c2_eviction_never_pinned 2 ⟨1, [⟨0, 0, 0, 0, false, false, false⟩], 0, [], []⟩ 0 0
    ⟨1, [⟨0, 0, 0, 0, false, false, false⟩], 0, [], []⟩ (by rfl)

/-- C3: the "if and only if a full eviction scan finds no evictable
frame" direction fails. In a two-frame pool where frame 0 is pinned and
frame 1 is valid, unpinned and merely referenced, allocBuf raises
BufferExceeded even though frame 1 is evictable (pinCount = 0): the
pinned-encounter counter, never reset, reaches numBufs by meeting the
pinned frame 0 twice before the hand re-examines the now-unreferenced
frame 1. -/
theorem c3_counterexample :
    allocBufLoop 9
        ⟨2, [⟨1, 1, 0, 1, false, false, true⟩, ⟨1, 2, 1, 0, false, true, true⟩], 1,
         [((1, 1), 0), ((1, 2), 1)], []⟩ 0 =
      some (Except.error BufErr.bufferExceeded) ∧
    (descAt ⟨2, [⟨1, 1, 0, 1, false, false, true⟩, ⟨1, 2, 1, 0, false, true, true⟩], 1,
         [((1, 1), 0), ((1, 2), 1)], []⟩ 1).valid = true ∧
    (descAt ⟨2, [⟨1, 1, 0, 1, false, false, true⟩, ⟨1, 2, 1, 0, false, true, true⟩], 1,
         [((1, 1), 0), ((1, 2), 1)], []⟩ 1).pinCnt = 0 :=
  ⟨rfl, rfl, rfl⟩

lemma allocBufLoop_error_pinned (fuel : Nat) :
    ∀ (st : BufState) (pinned : Nat), st.descs.length = st.numBufs →
      allocBufLoop fuel st pinned = some (Except.error BufErr.bufferExceeded) →
      pinned = st.numBufs ∨ ∃ i, i < st.numBufs ∧ 0 < (descAt st i).pinCnt := by
  induction fuel with
  | zero =>
    intro st pinned hlen h
    simp [allocBufLoop] at h
  | succ n ih =>
    intro st pinned hlen h
    rw [allocBufLoop] at h
    dsimp only at h
    by_cases h1 : pinned = st.numBufs
    · exact Or.inl h1
    · rw [if_neg h1] at h
      by_cases h2 : (descAt st ((st.clockHand + 1) % st.numBufs)).valid = false
      · rw [if_pos h2] at h
        exact absurd h (by simp)
      · rw [if_neg h2] at h
        by_cases h3 : (descAt st ((st.clockHand + 1) % st.numBufs)).refbit = true
        · rw [if_pos h3] at h
          have hres := ih _ _ (by simpa [setDescAt] using hlen) h
          rcases hres with hl | ⟨i, hi, hp⟩
          · exact Or.inl hl
          · refine Or.inr ⟨i, hi, ?_⟩
            have hpin := descAt_setDescAt_pinCnt
              { st with clockHand := (st.clockHand + 1) % st.numBufs }
              ((st.clockHand + 1) % st.numBufs) i
              { descAt st ((st.clockHand + 1) % st.numBufs) with refbit := false } rfl
            rw [hpin] at hp
            exact hp
        · rw [if_neg h3] at h
          by_cases h4 : 0 < (descAt st ((st.clockHand + 1) % st.numBufs)).pinCnt
          · rw [if_pos h4] at h
            have hres := ih { st with clockHand := (st.clockHand + 1) % st.numBufs }
              (pinned + 1) hlen h
            rcases hres with hl | ⟨i, hi, hp⟩
            · have hl' : pinned + 1 = st.numBufs := hl
              exact Or.inr ⟨(st.clockHand + 1) % st.numBufs, Nat.mod_lt _ (by omega), h4⟩
            · exact Or.inr ⟨i, hi, hp⟩
          · rw [if_neg h4] at h
            exact absurd h (by simp)

/-- C3 (amended): allocBuf fails with BufferExceeded exactly when its
pinned-encounter counter — which is never reset — accumulates to
numBufs before a selection, which implies some frame is pinned (for a
nonempty pool) but can happen even while an evictable frame exists; in
particular, with capacity N = 1, after fetching and holding page (A,1)
pinned, fetching (A,2) raises BufferExceeded, and the error propagates
out of readPage to its caller rather than being retried. -/
theorem c3_buffer_exceeded_amended :
    (∀ (fuel : Nat) (st : BufState), st.descs.length = st.numBufs →
        allocBufLoop fuel st 0 = some (Except.error BufErr.bufferExceeded) →
        0 = st.numBufs ∨ ∃ i, i < st.numBufs ∧ 0 < (descAt st i).pinCnt) ∧
    readPage ⟨1, [⟨0, 0, 0, 0, false, false, false⟩], 0, [], []⟩ 1 1 5 =
      some (Except.ok ⟨1, [⟨1, 1, 0, 1, false, true, true⟩], 0, [((1, 1), 0)], []⟩) ∧
    readPage ⟨1, [⟨1, 1, 0, 1, false, true, true⟩], 0, [((1, 1), 0)], []⟩ 1 2 9 =
      some (Except.error BufErr.bufferExceeded) :=
  ⟨fun fuel st hlen h => allocBufLoop_error_pinned fuel st 0 hlen h, rfl, rfl⟩

/-- C3 amended witness: instantiating the failure condition at the
premature-exhaustion pool shows a pinned frame exists there. -/
theorem c3_buffer_exceeded_amended_witness :
    0 = (⟨2, [⟨1, 1, 0, 1, false, false, true⟩, ⟨1, 2, 1, 0, false, true, true⟩], 1,
         [((1, 1), 0), ((1, 2), 1)], []⟩ : BufState).numBufs ∨
      ∃ i, i < (⟨2, [⟨1, 1, 0, 1, false, false, true⟩, ⟨1, 2, 1, 0, false, true, true⟩], 1,
         [((1, 1), 0), ((1, 2), 1)], []⟩ : BufState).numBufs ∧
        0 < (descAt ⟨2, [⟨1, 1, 0, 1, false, false, true⟩, ⟨1, 2, 1, 0, false, true, true⟩], 1,
         [((1, 1), 0), ((1, 2), 1)], []⟩ i).pinCnt :=
  c3_buffer_exceeded_amended.1 9
    ⟨2, [⟨1, 1, 0, 1, false, false, true⟩, ⟨1, 2, 1, 0, false, true, true⟩], 1,
     [((1, 1), 0), ((1, 2), 1)], []⟩ rfl rfl

/-- C7: the unPinPage contract. On an index hit with a positive pin
count the call succeeds, decrements the pin count and sets the dirty
bit to its old value OR the isDirty argument (so the bit is never
cleared here, even for isDirty = false), leaving every other descriptor
field unchanged; on a hit with pin count zero it fails with
PageNotPinned; on an index miss it succeeds silently with no state
change. -/
theorem c7_unPinPage_contract :
    (∀ (st : BufState) (f p : Nat) (b : Bool) (fr : Nat),
        htLookup st.hashTbl f p = some fr → 0 < (descAt st fr).pinCnt →
        unPinPage st f p b = Except.ok (setDescAt st fr
          { descAt st fr with
              pinCnt := (descAt st fr).pinCnt - 1,
              dirty := (descAt st fr).dirty || b })) ∧
    (∀ (st : BufState) (f p : Nat) (b : Bool) (fr : Nat),
        htLookup st.hashTbl f p = some fr → (descAt st fr).pinCnt = 0 →
        unPinPage st f p b = Except.error BufErr.pageNotPinned) ∧
    (∀ (st : BufState) (f p : Nat) (b : Bool),
        htLookup st.hashTbl f p = none →
        unPinPage st f p b = Except.ok st) := by
  refine ⟨?_, ?_, ?_⟩
  · intro st f p b fr hl hp
    unfold unPinPage
    rw [hl]
    dsimp only
    rw [if_pos hp]
    cases b with
    | false =>
      simp
    | true =>
      simp
  · intro st f p b fr hl hp
    unfold unPinPage
    rw [hl]
    dsimp only
    rw [if_neg (by omega)]
  · intro st f p b hl
    unfold unPinPage
    rw [hl]

/-- C7 witness: a resident twice-pinned page is unpinned dirty; a
resident unpinned page raises PageNotPinned; a non-resident page is a
silent no-op. -/
theorem c7_unPinPage_contract_witness :
    unPinPage ⟨1, [⟨1, 1, 0, 2, false, true, true⟩], 0, [((1, 1), 0)], []⟩ 1 1 true =
      Except.ok (setDescAt ⟨1, [⟨1, 1, 0, 2, false, true, true⟩], 0, [((1, 1), 0)], []⟩ 0
        { descAt ⟨1, [⟨1, 1, 0, 2, false, true, true⟩], 0, [((1, 1), 0)], []⟩ 0 with
            pinCnt := (descAt ⟨1, [⟨1, 1, 0, 2, false, true, true⟩], 0, [((1, 1), 0)], []⟩ 0).pinCnt - 1,
            dirty := (descAt ⟨1, [⟨1, 1, 0, 2, false, true, true⟩], 0, [((1, 1), 0)], []⟩ 0).dirty || true }) ∧
    unPinPage ⟨1, [⟨1, 1, 0, 0, false, true, true⟩], 0, [((1, 1), 0)], []⟩ 1 1 false =
      Except.error BufErr.pageNotPinned ∧
    unPinPage ⟨1, [⟨1, 1, 0, 2, false, true, true⟩], 0, [((1, 1), 0)], []⟩ 2 7 true =
      Except.ok ⟨1, [⟨1, 1, 0, 2, false, true, true⟩], 0, [((1, 1), 0)], []⟩ :=
  ⟨c7_unPinPage_contract.1 ⟨1, [⟨1, 1, 0, 2, false, true, true⟩], 0, [((1, 1), 0)], []⟩
      1 1 true 0 rfl (by decide),
   c7_unPinPage_contract.2.1 ⟨1, [⟨1, 1, 0, 0, false, true, true⟩], 0, [((1, 1), 0)], []⟩
      1 1 false 0 rfl (by decide),
   c7_unPinPage_contract.2.2 ⟨1, [⟨1, 1, 0, 2, false, true, true⟩], 0, [((1, 1), 0)], []⟩
      2 7 true rfl⟩

/-- One page of a relation file: its page number and the tuples stored
on it, as produced by the file and page iterators. -/
structure RelPage where
  pid : Nat
  tuples : List Tuple
deriving DecidableEq, Repr

/-- State threaded through NestedLoopJoinOperator::execute: the local
vectors usedPage and already_in_buf (pages kept by id), the multimap
hashMap, the counters read_page_num and usedPageNum, the member
counters numIOs, numUsedBufPages and numResultTuples, the sequence of
tuples inserted into the result file, and the isComplete flag.
HeapFileManager::insertTuple is modelled from the spec as appending the
tuple to the result sequence (storage.h is not under src/; the spec
says results are inserted into resultFile through the pool's
page-insertion path). -/
structure JoinState where
  usedPage : List Nat
  already_in_buf : List Nat
  hashMap : List (Tuple × List Tuple)
  read_page_num : Nat
  usedPageNum : Nat
  numIOs : Nat
  numUsedBufPages : Nat
  numResultTuples : Nat
  results : List Tuple
  isComplete : Bool
deriving DecidableEq, Repr

/-- std::map lookup: hashMap.count(k) == 1 and hashMap[k] combined. -/
def mapLookup (m : List (Tuple × List Tuple)) (k : Tuple) : Option (List Tuple) :=
  (m.find? (fun e => e.1 = k)).map (fun e => e.2)

/-- The build-side update: push_back onto an existing key's vector, or
insert a fresh singleton vector. -/
def mapUpsert (m : List (Tuple × List Tuple)) (k : Tuple) (v : Tuple) :
    List (Tuple × List Tuple) :=
  match mapLookup m k with
  | some _ => m.map (fun e => if e.1 = k then (e.1, e.2 ++ [v]) else e)
  | none => m ++ [(k, [v])]

/-- Build step for one right tuple (executor.cpp lines 348-362): compute
(key, remainder) with handle_tuple and extend the multimap; a throwing
handle_tuple aborts execute, carrying the state at the throw. -/
def buildTuple (rightSchema : TableSchema) (sameName : List String)
    (st : JoinState) (tup : Tuple) : Except JoinState JoinState :=
  match handle_tuple sameName tup rightSchema with
  | none => Except.error st
  | some kr => Except.ok { st with hashMap := mapUpsert st.hashMap kr.1 kr.2 }

/-- Build step over the tuples of one right page. -/
def buildTuples (rightSchema : TableSchema) (sameName : List String) :
    List Tuple → JoinState → Except JoinState JoinState
  | [], st => Except.ok st
  | t :: ts, st =>
    match buildTuple rightSchema sameName st t with
    | Except.ok st' => buildTuples rightSchema sameName ts st'
    | Except.error e => Except.error e

/-- The build loop of one macro-pass (executor.cpp lines 335-369): walk
the right file's pages in order, break once read_page_num reaches
numAvailableBufPages - 1, skip pages already consumed in earlier
passes, and otherwise fetch the page, build from its tuples, and record
it in usedPage and already_in_buf, bumping numIOs, numUsedBufPages and
read_page_num. -/
def buildPass (avail : Int) (rightSchema : TableSchema) (sameName : List String) :
    List RelPage → JoinState → Except JoinState JoinState
  | [], st => Except.ok st
  | p :: ps, st =>
    if (st.read_page_num : Int) ≥ avail - 1 then Except.ok st
    else if p.pid ∈ st.usedPage then buildPass avail rightSchema sameName ps st
    else
      match buildTuples rightSchema sameName p.tuples st with
      | Except.error e => Except.error e
      | Except.ok st₁ => buildPass avail rightSchema sameName ps
          { st₁ with
              usedPage := st₁.usedPage ++ [p.pid],
              already_in_buf := st₁.already_in_buf ++ [p.pid],
              numIOs := st₁.numIOs + 1,
              numUsedBufPages := st₁.numUsedBufPages + 1,
              read_page_num := st₁.read_page_num + 1 }

/-- The probe loop over one key's bucket (executor.cpp lines 388-394):
for each stored remainder, numResultTuples++ and
lefttuple.insert(lefttuple.size(), temp) — which MUTATES lefttuple and
returns it — then the mutated string is inserted into the result file.
The accumulator carries the (mutated) left tuple, the result sequence
and the counter. -/
def probeBucket : List Tuple → Tuple → List Tuple → Nat → Tuple × List Tuple × Nat
  | [], lt, res, n => (lt, res, n)
  | temp :: rest, lt, res, n =>
    probeBucket rest (lt ++ temp) (res ++ [lt ++ temp]) (n + 1)

/-- Probe step for one left tuple (executor.cpp lines 384-395). -/
def probeTuple (leftSchema : TableSchema) (sameName : List String)
    (st : JoinState) (tup : Tuple) : Except JoinState JoinState :=
  match handle_tuple sameName tup leftSchema with
  | none => Except.error st
  | some kr =>
    match mapLookup st.hashMap kr.1 with
    | none => Except.ok st
    | some bucket =>
      let r := probeBucket bucket tup st.results st.numResultTuples
      Except.ok { st with results := r.2.1, numResultTuples := r.2.2 }

/-- Probe step over the tuples of one left page. -/
def probeTuples (leftSchema : TableSchema) (sameName : List String) :
    List Tuple → JoinState → Except JoinState JoinState
  | [], st => Except.ok st
  | t :: ts, st =>
    match probeTuple leftSchema sameName st t with
    | Except.ok st' => probeTuples leftSchema sameName ts st'
    | Except.error e => Except.error e

/-- Probe of one left page (executor.cpp lines 372-398): fetch the page
(numUsedBufPages++ and numIOs++), probe its tuples, unpin it (a
metadata no-op in this model). -/
def probePage (leftSchema : TableSchema) (sameName : List String)
    (st : JoinState) (p : RelPage) : Except JoinState JoinState :=
  probeTuples leftSchema sameName p.tuples
    { st with numUsedBufPages := st.numUsedBufPages + 1, numIOs := st.numIOs + 1 }

/-- Probe loop over every left page, run once per macro-pass. -/
def probePass (leftSchema : TableSchema) (sameName : List String) :
    List RelPage → JoinState → Except JoinState JoinState
  | [], st => Except.ok st
  | p :: ps, st =>
    match probePage leftSchema sameName st p with
    | Except.ok st' => probePass leftSchema sameName ps st'
    | Except.error e => Except.error e

/-- One macro-pass of execute: build, add read_page_num to usedPageNum
(line 370), probe, then unpin the fetched right pages and flush the
right file (metadata no-ops here), clear already_in_buf and reset
read_page_num (lines 400-405). The hashMap is NOT cleared. -/
def passBody (avail : Int) (leftSchema rightSchema : TableSchema)
    (sameName : List String) (leftPages rightPages : List RelPage)
    (st : JoinState) : Except JoinState JoinState :=
  match buildPass avail rightSchema sameName rightPages st with
  | Except.error e => Except.error e
  | Except.ok st₂ =>
    match probePass leftSchema sameName leftPages
        { st₂ with usedPageNum := st₂.usedPageNum + st₂.read_page_num } with
    | Except.error e => Except.error e
    | Except.ok st₄ => Except.ok { st₄ with already_in_buf := [], read_page_num := 0 }

/-- Outcome of execute: normal return, a propagated exception (with the
state at the throw), or fuel exhaustion of the macro-pass while loop
(with the state at that point) — the C++ loop has no built-in bound. -/
inductive JoinOut
  | ok (st : JoinState)
  | exn (st : JoinState)
  | timeout (st : JoinState)
deriving DecidableEq, Repr

/-- The while loop of execute (line 333): while usedPageNum < sum run a
macro-pass; on exit mark the join complete and return success. -/
def njLoop (avail : Int) (leftSchema rightSchema : TableSchema)
    (sameName : List String) (leftPages rightPages : List RelPage) (sum : Nat) :
    Nat → JoinState → JoinOut
  | 0, st => JoinOut.timeout st
  | fuel + 1, st =>
    if st.usedPageNum < sum then
      match passBody avail leftSchema rightSchema sameName leftPages rightPages st with
      | Except.error e => JoinOut.exn e
      | Except.ok st' =>
        njLoop avail leftSchema rightSchema sameName leftPages rightPages sum fuel st'
    else JoinOut.ok { st with isComplete := true }

/-- Initial state of a freshly constructed join operator. -/
def joinInit : JoinState := ⟨[], [], [], 0, 0, 0, 0, 0, [], false⟩

/-- NestedLoopJoinOperator::execute (executor.cpp lines 295-410): return
success at once when already complete; otherwise reset the counters,
build the name-only join-column list, count the right file's pages
(sum) and run macro-passes until every right page has been consumed. -/
def nlj_execute (fuel : Nat) (avail : Int) (leftSchema rightSchema : TableSchema)
    (leftPages rightPages : List RelPage) (st : JoinState) : JoinOut :=
  if st.isComplete = true then JoinOut.ok st
  else
    njLoop avail leftSchema rightSchema (sameNames leftSchema rightSchema)
      leftPages rightPages rightPages.length fuel
      { st with
          numResultTuples := 0, numUsedBufPages := 0, numIOs := 0,
          usedPage := [], already_in_buf := [], hashMap := [],
          read_page_num := 0, usedPageNum := 0 }

/-- Left schema (a INT, b INT) of the concrete join runs. -/
def leftSchemaJ : TableSchema :=
  [⟨"a", DataType.INT, 4, false, false⟩, ⟨"b", DataType.INT, 4, false, false⟩]

/-- Right schema (a INT, c INT) of the concrete join runs; a is the one
common attribute. -/
def rightSchemaJ : TableSchema :=
  [⟨"a", DataType.INT, 4, false, false⟩, ⟨"c", DataType.INT, 4, false, false⟩]

/-- Encoded left tuple (a = 1, b = 2). -/
def tupL : Tuple := [0, 0, 0, 1, 0, 0, 0, 2]

/-- Encoded right tuple (a = 1, c = 7). -/
def tupR1 : Tuple := [0, 0, 0, 1, 0, 0, 0, 7]

/-- Encoded right tuple (a = 1, c = 8). -/
def tupR2 : Tuple := [0, 0, 0, 1, 0, 0, 0, 8]

/-- Encoded right tuple (a = 9, c = 8), matching no left tuple. -/
def tupR3 : Tuple := [0, 0, 0, 9, 0, 0, 0, 8]

/-- C1: the code fails the claim. One left tuple L = (a=1, b=2) matches
two right tuples R1 = (a=1, c=7) and R2 = (a=1, c=8) on the single
common attribute a; the probe loop's
`lefttuple.insert(lefttuple.size(), temp)` mutates lefttuple, so the
two inserted result tuples are L·rem(R1) and L·rem(R1)·rem(R2): no
tuple equal to L's bytes followed by R2's non-common bytes
([0,0,0,1,0,0,0,2,0,0,0,8]) is ever inserted, though the claim demands
exactly one. -/
theorem c1_probe_mutation_bug :
    nlj_execute 3 2 leftSchemaJ rightSchemaJ [⟨1, [tupL]⟩] [⟨1, [tupR1, tupR2]⟩] joinInit =
      JoinOut.ok
        ⟨[1], [], [([0, 0, 0, 1], [[0, 0, 0, 7], [0, 0, 0, 8]])], 0, 1, 2, 2, 2,
         [[0, 0, 0, 1, 0, 0, 0, 2, 0, 0, 0, 7],
          [0, 0, 0, 1, 0, 0, 0, 2, 0, 0, 0, 7, 0, 0, 0, 8]], true⟩ ∧
    List.count ([0, 0, 0, 1, 0, 0, 0, 2, 0, 0, 0, 8] : Tuple)
        [[0, 0, 0, 1, 0, 0, 0, 2, 0, 0, 0, 7],
         [0, 0, 0, 1, 0, 0, 0, 2, 0, 0, 0, 7, 0, 0, 0, 8]] = 0 :=
  ⟨rfl, rfl⟩

/-- C5: the code fails the claim. With two right pages and
numAvailableBufPages = 2, the first macro-pass consumes only right page
1; at its end already_in_buf is cleared and the right file flushed, but
hashMap still holds the pass-1 entry when pass 2 begins (usedPageNum =
1 < 2): the first conjunct exhibits the state entering pass 2
(njLoop with fuel for exactly one pass); the second shows the
consequence, the pass-1 match (a=1) is re-probed in pass 2 and the same
result tuple is inserted twice. -/
theorem c5_hashmap_not_cleared :
    njLoop 2 leftSchemaJ rightSchemaJ (sameNames leftSchemaJ rightSchemaJ)
        [⟨1, [tupL]⟩] [⟨1, [tupR1]⟩, ⟨2, [tupR3]⟩] 2 1 joinInit =
      JoinOut.timeout
        ⟨[1], [], [([0, 0, 0, 1], [[0, 0, 0, 7]])], 0, 1, 2, 2, 1,
         [[0, 0, 0, 1, 0, 0, 0, 2, 0, 0, 0, 7]], false⟩ ∧
    nlj_execute 3 2 leftSchemaJ rightSchemaJ [⟨1, [tupL]⟩] [⟨1, [tupR1]⟩, ⟨2, [tupR3]⟩]
        joinInit =
      JoinOut.ok
        ⟨[1, 2], [], [([0, 0, 0, 1], [[0, 0, 0, 7]]), ([0, 0, 0, 9], [[0, 0, 0, 8]])],
         0, 2, 4, 4, 2,
         [[0, 0, 0, 1, 0, 0, 0, 2, 0, 0, 0, 7],
          [0, 0, 0, 1, 0, 0, 0, 2, 0, 0, 0, 7]], true⟩ :=
  ⟨rfl, rfl⟩

/-- Persistent state of the stub join operators (OnePassJoinOperator,
GraceHashJoinOperator). -/
structure StubState where
  isComplete : Bool
  numResultTuples : Nat
  numUsedBufPages : Nat
  numIOs : Nat
deriving DecidableEq, Repr

/-- OnePassJoinOperator::execute (executor.cpp lines 224-236): return
true when complete, else reset the counters, do nothing (TODO stub),
mark complete and return true. -/
def onePass_execute (st : StubState) : Bool × StubState :=
  if st.isComplete = true then (true, st) else (true, ⟨true, 0, 0, 0⟩)

/-- GraceHashJoinOperator::execute (executor.cpp lines 417-430):
identical stub behaviour. -/
def graceHash_execute (st : StubState) : Bool × StubState :=
  if st.isComplete = true then (true, st) else (true, ⟨true, 0, 0, 0⟩)

/-- C9: the claim fails on the code. Both unimplemented join variants
return true (success) on every call — on a fresh operator they reset
the counters, produce no output (zero result tuples) and mark
themselves complete — instead of failing with "not yet supported" as
the spec requires. -/
theorem c9_stubs_report_success :
    (∀ st : StubState, (onePass_execute st).1 = true ∧ (graceHash_execute st).1 = true) ∧
    (onePass_execute ⟨false, 0, 0, 0⟩).2.numResultTuples = 0 ∧
    (onePass_execute ⟨false, 0, 0, 0⟩).2.isComplete = true ∧
    (graceHash_execute ⟨false, 0, 0, 0⟩).2.numResultTuples = 0 ∧
    (graceHash_execute ⟨false, 0, 0, 0⟩).2.isComplete = true := by
  refine ⟨fun st => ⟨?_, ?_⟩, rfl, rfl, rfl, rfl⟩
  · unfold onePass_execute
    split <;> rfl
  · unfold graceHash_execute
    split <;> rfl

lemma njLoop_ok_isComplete (avail : Int) (lsch rsch : TableSchema) (sn : List String)
    (lp rp : List RelPage) (sum : Nat) (fuel : Nat) :
    ∀ (st st' : JoinState),
      njLoop avail lsch rsch sn lp rp sum fuel st = JoinOut.ok st' →
      st'.isComplete = true := by
  induction fuel with
  | zero =>
    intro st st' h
    simp [njLoop] at h
  | succ n ih =>
    intro st st' h
    rw [njLoop] at h
    by_cases hlt : st.usedPageNum < sum
    · rw [if_pos hlt] at h
      cases hpb : passBody avail lsch rsch sn lp rp st with
      | error e =>
        rw [hpb] at h
        exact absurd h (by simp)
      | ok st₁ =>
        rw [hpb] at h
        exact ih st₁ st' h
    · rw [if_neg hlt] at h
      simp only [JoinOut.ok.injEq] at h
      rw [← h]

/-- C8: execute is idempotent after completion. If a call to
NestedLoopJoinOperator::execute returned success (leaving isComplete =
true in the resulting operator state), then any later call returns
success immediately with the state — result counters, numIOs (so no
page is fetched) and the result-file contents — completely unchanged,
whatever arguments it is given. -/
theorem c8_execute_idempotent (fuel : Nat) (avail : Int)
    (lsch rsch : TableSchema) (lp rp : List RelPage)
    (fuel₂ : Nat) (avail₂ : Int) (lsch₂ rsch₂ : TableSchema) (lp₂ rp₂ : List RelPage)
    (st st' : JoinState)
    (h : nlj_execute fuel avail lsch rsch lp rp st = JoinOut.ok st') :
    nlj_execute fuel₂ avail₂ lsch₂ rsch₂ lp₂ rp₂ st' = JoinOut.ok st' := by
  have hc : st'.isComplete = true := by
    unfold nlj_execute at h
    by_cases hst : st.isComplete = true
    · rw [if_pos hst] at h
      simp only [JoinOut.ok.injEq] at h
      rw [← h]
      exact hst
    · rw [if_neg hst] at h
      exact njLoop_ok_isComplete _ _ _ _ _ _ _ _ _ _ h
  unfold nlj_execute
  rw [if_pos hc]

/-- C8 witness: a join over empty relations completes in one call, and
re-invoking execute on the completed state returns it unchanged. -/
theorem c8_execute_idempotent_witness :
    nlj_execute 2 2 [] [] [] [] (⟨[], [], [], 0, 0, 0, 0, 0, [], true⟩ : JoinState) =
      JoinOut.ok ⟨[], [], [], 0, 0, 0, 0, 0, [], true⟩ :=
  c8_execute_idempotent 1 2 [] [] [] [] 2 2 [] [] [] [] joinInit
    ⟨[], [], [], 0, 0, 0, 0, 0, [], true⟩ rfl

/-- The pass-progress fields of the macro-pass loop: b agrees with a on
usedPage, usedPageNum and read_page_num. -/
abbrev samePassFields (a b : JoinState) : Prop :=
  b.usedPage = a.usedPage ∧ b.usedPageNum = a.usedPageNum ∧
    b.read_page_num = a.read_page_num

/-- The state carried by either outcome of a pass component. -/
def outFields : Except JoinState JoinState → JoinState
  | Except.ok s => s
  | Except.error s => s

lemma probeTuple_fields (lsch : TableSchema) (sn : List String)
    (st : JoinState) (t : Tuple) :
    samePassFields st (outFields (probeTuple lsch sn st t)) := by
  unfold probeTuple
  cases hht : handle_tuple sn t lsch with
  | none => exact ⟨rfl, rfl, rfl⟩
  | some kr =>
    dsimp only
    cases hml : mapLookup st.hashMap kr.1 with
    | none => exact ⟨rfl, rfl, rfl⟩
    | some bucket => exact ⟨rfl, rfl, rfl⟩

lemma probeTuples_fields (lsch : TableSchema) (sn : List String) (ts : List Tuple) :
    ∀ st : JoinState, samePassFields st (outFields (probeTuples lsch sn ts st)) := by
  induction ts with
  | nil =>
    intro st
    exact ⟨rfl, rfl, rfl⟩
  | cons t ts ih =>
    intro st
    have h1 := probeTuple_fields lsch sn st t
    unfold probeTuples
    cases hpt : probeTuple lsch sn st t with
    | ok st₁ =>
      rw [hpt] at h1
      dsimp only [outFields] at h1
      have h2 := ih st₁
      exact ⟨by rw [h2.1, h1.1], by rw [h2.2.1, h1.2.1], by rw [h2.2.2, h1.2.2]⟩
    | error e =>
      rw [hpt] at h1
      exact h1

lemma probePage_fields (lsch : TableSchema) (sn : List String)
    (st : JoinState) (p : RelPage) :
    samePassFields st (outFields (probePage lsch sn st p)) := by
  unfold probePage
  exact probeTuples_fields lsch sn p.tuples _

lemma probePass_fields (lsch : TableSchema) (sn : List String) (ps : List RelPage) :
    ∀ st : JoinState, samePassFields st (outFields (probePass lsch sn ps st)) := by
  induction ps with
  | nil =>
    intro st
    exact ⟨rfl, rfl, rfl⟩
  | cons p ps ih =>
    intro st
    have h1 := probePage_fields lsch sn st p
    unfold probePass
    cases hpp : probePage lsch sn st p with
    | ok st₁ =>
      rw [hpp] at h1
      dsimp only [outFields] at h1
      have h2 := ih st₁
      exact ⟨by rw [h2.1, h1.1], by rw [h2.2.1, h1.2.1], by rw [h2.2.2, h1.2.2]⟩
    | error e =>
      rw [hpp] at h1
      exact h1

lemma buildPass_noProgress (avail : Int) (rsch : TableSchema) (sn : List String)
    (ps : List RelPage) (st : JoinState)
    (havail : avail ≤ 1) (h3 : st.read_page_num = 0) :
    buildPass avail rsch sn ps st = Except.ok st := by
  cases ps with
  | nil => rfl
  | cons p ps =>
    unfold buildPass
    rw [if_pos]
    rw [h3]
    omega

lemma passBody_noProgress (avail : Int) (lsch rsch : TableSchema) (sn : List String)
    (lp rp : List RelPage) (st : JoinState)
    (havail : avail ≤ 1)
    (h1 : st.usedPage = []) (h2 : st.usedPageNum = 0) (h3 : st.read_page_num = 0) :
    (outFields (passBody avail lsch rsch sn lp rp st)).usedPage = [] ∧
      (outFields (passBody avail lsch rsch sn lp rp st)).usedPageNum = 0 ∧
      (outFields (passBody avail lsch rsch sn lp rp st)).read_page_num = 0 := by
  unfold passBody
  rw [buildPass_noProgress avail rsch sn rp st havail h3]
  dsimp only
  have hfields := probePass_fields lsch sn lp
    { st with usedPageNum := st.usedPageNum + st.read_page_num }
  cases hpp : probePass lsch sn lp
      { st with usedPageNum := st.usedPageNum + st.read_page_num } with
  | error e =>
    rw [hpp] at hfields
    dsimp only [outFields] at hfields
    refine ⟨?_, ?_, ?_⟩
    · show e.usedPage = []
      rw [hfields.1]
      exact h1
    · show e.usedPageNum = 0
      rw [hfields.2.1]
      dsimp only
      omega
    · show e.read_page_num = 0
      rw [hfields.2.2]
      exact h3
  | ok st₄ =>
    rw [hpp] at hfields
    dsimp only [outFields] at hfields
    refine ⟨?_, ?_, ?_⟩
    · show st₄.usedPage = []
      rw [hfields.1]
      exact h1
    · show st₄.usedPageNum = 0
      rw [hfields.2.1]
      dsimp only
      omega
    · rfl

/-- Outcome predicate for C10: the run did not return normally, no right
page was ever fetched (usedPage stayed empty) and the consumed-page
count stayed zero. -/
def stuckOut : JoinOut → Bool
  | JoinOut.ok _ => false
  | JoinOut.exn s => s.usedPage.isEmpty && (s.usedPageNum == 0)
  | JoinOut.timeout s => s.usedPage.isEmpty && (s.usedPageNum == 0)

lemma njLoop_stuck (avail : Int) (lsch rsch : TableSchema) (sn : List String)
    (lp rp : List RelPage) (sum : Nat)
    (havail : avail ≤ 1) (hsum : 0 < sum) :
    ∀ (fuel : Nat) (st : JoinState),
      st.usedPage = [] → st.usedPageNum = 0 → st.read_page_num = 0 →
      stuckOut (njLoop avail lsch rsch sn lp rp sum fuel st) = true := by
  intro fuel
  induction fuel with
  | zero =>
    intro st h1 h2 _
    simp [njLoop, stuckOut, h1, h2]
  | succ n ih =>
    intro st h1 h2 h3
    rw [njLoop]
    rw [if_pos (by omega)]
    have hp := passBody_noProgress avail lsch rsch sn lp rp st havail h1 h2 h3
    cases hpb : passBody avail lsch rsch sn lp rp st with
    | error e =>
      rw [hpb] at hp
      dsimp only [outFields] at hp
      simp only [stuckOut]
      simp [hp.1, hp.2.1]
    | ok st₁ =>
      rw [hpb] at hp
      dsimp only [outFields] at hp
      exact ih st₁ hp.1 hp.2.1 hp.2.2

/-- C10: a first call to execute with numAvailableBufPages at most 1 and
a non-empty right relation makes no progress: the build step's break
condition read_page_num >= numAvailableBufPages - 1 holds immediately,
so no right page is ever fetched (usedPage stays empty), the consumed
count usedPageNum stays 0 < sum, and the macro-pass while loop never
exits normally — for every fuel bound the run either times out or
aborts in an exception, never returning success; equivalently, a normal
return requires numAvailableBufPages >= 2 or an empty right relation. -/
theorem c10_starvation (avail : Int) (lsch rsch : TableSchema)
    (lp rp : List RelPage) (st : JoinState)
    (havail : avail ≤ 1) (hrp : rp ≠ []) (hst : st.isComplete = false) :
    ∀ fuel : Nat, stuckOut (nlj_execute fuel avail lsch rsch lp rp st) = true := by
  intro fuel
  unfold nlj_execute
  rw [if_neg (by rw [hst]; simp)]
  exact njLoop_stuck avail lsch rsch (sameNames lsch rsch) lp rp rp.length havail
    (List.length_pos.mpr hrp) fuel _ rfl rfl rfl

/-- C10 witness: a one-page right relation with numAvailableBufPages = 1
starves at every fuel bound (instantiated at fuel 3). -/
theorem c10_starvation_witness :
    stuckOut (nlj_execute 3 1 [] [] [] [⟨1, []⟩] joinInit) = true :=
  c10_starvation 1 [] [] [] [⟨1, []⟩] joinInit (by decide) (by decide) rfl 3

end DBLab
